import Mathlib

/-
Verification of the starsearch protocol-and-trust core: a shallow embedding in
Lean 4 of the Gemini/Gopher document parsers, the status classifiers, the TOFU
certificate store and the page cache, together with theorems settling the
spec's claims about them.

Strings are modelled by Lean's `String` (a structure over `List Char`); the Go
standard-library string helpers used by the code (`strings.HasPrefix`,
`strings.Fields`, `strings.TrimSpace`, `strings.Split`, `bufio.Scanner` line
splitting, ...) are re-implemented below on `List Char` so that they are
executable and kernel-reducible.  Byte-level operations on ASCII data coincide
with the character-level model used here.  `time.Time` values are modelled as
integers (instants with `Before`/`After` as `<`), and Go `int`/`int64` as
`Int`/`Nat` as appropriate.  The SHA-256 function and URL parsing come from the
Go standard library, not from this repository, so they enter the model as
abstract function parameters.
-/

namespace Starsearch

/-! ### Go string helpers -/

/-- Whitespace predicate of Go's `unicode.IsSpace` (the code points it accepts
in the Latin-1 range). -/
def goIsSpace (c : Char) : Bool :=
  c == ' ' || c == '\t' || c == '\n' || c == '\x0b' || c == '\x0c' || c == '\r'
    || c == '\u0085' || c == ' '

/-- Split a character list at every character satisfying `p`
(like `strings.Split` for a one-character separator, generalized). -/
def splitOnP (p : Char → Bool) : List Char → List (List Char)
  | [] => [[]]
  | c :: cs =>
    if p c then [] :: splitOnP p cs
    else
      match splitOnP p cs with
      | [] => [[c]]
      | h :: t => (c :: h) :: t

/-- `strings.Split s sep` for the one-character separator `sep`. -/
def splitOnChar (sep : Char) (s : List Char) : List (List Char) :=
  splitOnP (fun c => c == sep) s

/-- `strings.HasPrefix s pre`. -/
def goStartsWith (s pre : String) : Bool :=
  pre.data.isPrefixOf s.data

/-- `strings.TrimPrefix s pre`. -/
def goTrimPre (s pre : String) : String :=
  if goStartsWith s pre then String.mk (s.data.drop pre.data.length) else s

/-- `strings.TrimSpace s`. -/
def goTrimSpace (s : String) : String :=
  String.mk (((s.data.dropWhile goIsSpace).reverse.dropWhile goIsSpace).reverse)

/-- `strings.TrimRight s "\r\n"`. -/
def goTrimRightCRLF (s : String) : String :=
  String.mk ((s.data.reverse.dropWhile (fun c => c == '\r' || c == '\n')).reverse)

/-- `strings.Fields s`: the maximal runs of non-whitespace characters. -/
def goFields (s : String) : List String :=
  ((splitOnP goIsSpace s.data).filter (fun l => !l.isEmpty)).map String.mk

/-- `strings.Join parts sep`. -/
def goJoin (sep : String) : List String → String
  | [] => ""
  | [x] => x
  | x :: y :: xs => x ++ sep ++ goJoin sep (y :: xs)

/-- `strings.Split s "\t"`. -/
def goSplitTab (s : String) : List String :=
  (splitOnChar '\t' s.data).map String.mk

/-- Drop one trailing carriage return (`dropCR` inside `bufio.ScanLines`). -/
def goDropCR (l : List Char) : List Char :=
  if l.getLast? == some '\r' then l.dropLast else l

/-- The sequence of tokens produced by a `bufio.Scanner` with the default
`ScanLines` split function: split at every newline, drop the empty token after
a final newline, and strip one `'\r'` from the end of each token. -/
def goLines (s : String) : List String :=
  let parts := splitOnChar '\n' s.data
  let parts := if parts.getLast? == some [] then parts.dropLast else parts
  parts.map (fun l => String.mk (goDropCR l))

/-- Indexing `s[i]` on a Go string (ASCII model: character at position `i`). -/
def goCharAt (s : String) (i : Nat) : Char :=
  s.data.getD i (Char.ofNat 0)

/-! ### Data model (`internal/types/types.go`) -/

/-- `types.LineType`. -/
inductive LineType where
  | text
  | link
  | heading1
  | heading2
  | heading3
  | list
  | quote
  | preformatStart
  | preformatEnd
  | preformatText
deriving DecidableEq, Repr, Inhabited

/-- `types.Line`; the field defaults are Go's zero values. -/
structure Line where
  type : LineType := .text
  raw : String := ""
  text : String := ""
  url : String := ""
  linkNum : Nat := 0
deriving DecidableEq, Repr, Inhabited

/-- `types.Response` (the body, raw bytes in Go, is modelled as a string). -/
structure Response where
  status : Int
  meta : String
  body : String
  remoteAddr : String := ""
  url : String
deriving DecidableEq, Repr, Inhabited

/-- `types.Document`. -/
structure Document where
  url : String
  rawBody : String
  lines : List Line
  links : List Line
  mimeType : String
deriving DecidableEq, Repr, Inhabited

/-! ### Status classifiers (`internal/gemini/client.go`) -/

namespace Gemini

/-- `gemini.IsSuccessStatus`. -/
def IsSuccessStatus (status : Int) : Bool :=
  decide (20 ≤ status) && decide (status < 30)

/-- `gemini.IsRedirectStatus`. -/
def IsRedirectStatus (status : Int) : Bool :=
  decide (30 ≤ status) && decide (status < 40)

/-- `gemini.IsInputStatus`. -/
def IsInputStatus (status : Int) : Bool :=
  decide (10 ≤ status) && decide (status < 20)

/-- `gemini.IsTemporaryFailure`. -/
def IsTemporaryFailure (status : Int) : Bool :=
  decide (40 ≤ status) && decide (status < 50)

/-- `gemini.IsPermanentFailure`. -/
def IsPermanentFailure (status : Int) : Bool :=
  decide (50 ≤ status) && decide (status < 60)

/-- `gemini.IsCertificateRequired`. -/
def IsCertificateRequired (status : Int) : Bool :=
  decide (60 ≤ status) && decide (status < 70)

/-- `gemini.GetMIMEType`. -/
def GetMIMEType (resp : Response) : String :=
  if IsSuccessStatus resp.status then resp.meta else ""

/-- `gemini.IsTextGemini`. -/
def IsTextGemini (mimeType : String) : Bool :=
  mimeType == "text/gemini" ||
    mimeType == "text/gemini; charset=utf-8" ||
    mimeType == "text/gemini;charset=utf-8"

/-- `gemini.IsTextPlain`. -/
def IsTextPlain (mimeType : String) : Bool :=
  mimeType == "text/plain" ||
    mimeType == "text/plain; charset=utf-8" ||
    mimeType == "text/plain;charset=utf-8"

/-! ### Gemini document parser (`internal/gemini/parser.go`)

The parser resolves each link target with `net/url` (`url.Parse`,
`ResolveReference`, `URL.String`); that standard-library pipeline is abstracted
here as a function parameter `resolveURL : String → String` mapping the raw
link target to the resolved URL string (the code falls back to the raw target
when `url.Parse` fails, which the abstraction absorbs). -/

/-- `Parser.parseLine`: parse one line, threading the `inPreformat` flag and
the link counter (passed by pointer in Go).  Returns the parsed line, the new
`inPreformat` flag and the new link counter. -/
def parseLine (resolveURL : String → String) (rawLine : String)
    (inPreformat : Bool) (linkNum : Nat) : Line × Bool × Nat :=
  if goStartsWith rawLine "```" then
    let inPre := !inPreformat
    if inPre then
      ({ type := .preformatStart, raw := rawLine,
         text := goTrimSpace (goTrimPre rawLine "```") }, inPre, linkNum)
    else
      ({ type := .preformatEnd, raw := rawLine }, inPre, linkNum)
  else if inPreformat then
    ({ type := .preformatText, raw := rawLine, text := rawLine },
     inPreformat, linkNum)
  else if goStartsWith rawLine "=>" then
    let content := goTrimSpace (goTrimPre rawLine "=>")
    match goFields content with
    | [] => ({ type := .link, raw := rawLine }, inPreformat, linkNum)
    | linkURL :: rest =>
      let text := if rest.isEmpty then linkURL else goJoin " " rest
      ({ type := .link, raw := rawLine, text := text,
         url := resolveURL linkURL, linkNum := linkNum },
       inPreformat, linkNum + 1)
  else if goStartsWith rawLine "#" then
    if goStartsWith rawLine "###" then
      ({ type := .heading3, raw := rawLine,
         text := goTrimSpace (goTrimPre rawLine "###") }, inPreformat, linkNum)
    else if goStartsWith rawLine "##" then
      ({ type := .heading2, raw := rawLine,
         text := goTrimSpace (goTrimPre rawLine "##") }, inPreformat, linkNum)
    else
      ({ type := .heading1, raw := rawLine,
         text := goTrimSpace (goTrimPre rawLine "#") }, inPreformat, linkNum)
  else if goStartsWith rawLine "*" && decide (1 < rawLine.data.length)
      && (goCharAt rawLine 1 == ' ') then
    ({ type := .list, raw := rawLine,
       text := goTrimSpace (goTrimPre rawLine "*") }, inPreformat, linkNum)
  else if goStartsWith rawLine ">" then
    ({ type := .quote, raw := rawLine,
       text := goTrimSpace (goTrimPre rawLine ">") }, inPreformat, linkNum)
  else
    ({ type := .text, raw := rawLine, text := rawLine }, inPreformat, linkNum)

/-- The scanner loop inside `Parser.Parse`: parse each scanned line in order,
threading the preformat flag and the link counter. -/
def parseLines (resolveURL : String → String) :
    List String → Bool → Nat → List Line
  | [], _, _ => []
  | r :: rs, inPre, ln =>
    let res := parseLine resolveURL r inPre ln
    res.1 :: parseLines resolveURL rs res.2.1 res.2.2

/-- `Parser.Parse`.  `doc.Links` collects, in order, exactly the parsed lines
appended with type `LineLink` (the Go loop appends them as they are produced,
which is the filter of the produced lines). -/
def Parse (resolveURL : String → String) (resp : Response) : Document :=
  let mime := GetMIMEType resp
  if !IsTextGemini mime && !IsTextPlain mime then
    { url := resp.url, rawBody := resp.body, lines := [], links := [],
      mimeType := mime }
  else
    let lines := parseLines resolveURL (goLines resp.body) false 1
    { url := resp.url, rawBody := resp.body, lines := lines,
      links := lines.filter (fun l => l.type == .link), mimeType := mime }

/-- The search loop of `GetTitle`: the text of the first heading line (any
level) with non-empty text, if any. -/
def getTitleLoop : List Line → Option String
  | [] => none
  | l :: ls =>
    if l.type == .heading1 || l.type == .heading2 || l.type == .heading3 then
      if l.text != "" then some l.text else getTitleLoop ls
    else getTitleLoop ls

/-- `gemini.GetTitle`.  `parseHost` abstracts the standard library's
`url.Parse` composed with `.Host`: `some h` when parsing succeeds with host
component `h`, `none` when `url.Parse` returns an error. -/
def GetTitle (parseHost : String → Option String) (doc : Document) : String :=
  match getTitleLoop doc.lines with
  | some t => t
  | none =>
    match parseHost doc.url with
    | some host => host
    | none => doc.url

/-- A line whose `=>` marker, when present, is followed by at least one
whitespace-delimited token.  On a bare `=>` line with no token the parser
emits a line typed `LineLink` without assigning a link number, so the link
numbering invariant is stated for documents whose lines satisfy this. -/
def goodLinkLine (r : String) : Prop :=
  goStartsWith r "=>" = true → goFields (goTrimSpace (goTrimPre r "=>")) ≠ []

instance (r : String) : Decidable (goodLinkLine r) := by
  unfold goodLinkLine; infer_instance

end Gemini

/-! ### Gopher document parser (gopher `parser.go`) -/

namespace Gopher

/-- `gopher.IsGopherMenu`. -/
def IsGopherMenu (mimeType : String) : Bool :=
  goStartsWith mimeType "text/gopher"

/-- `Parser.parseGopherLine`: parse one Gopher menu line, threading the link
counter.  The `switch` on the item type is rendered as a chain of tests; every
selectable item type (and the `default` case) builds
`gopher://host:port/<type><selector>`, except an `h` item whose selector
carries a `URL:` prefix. -/
def parseGopherLine (rawLine0 : String) (linkNum : Nat) : Line × Nat :=
  let rawLine := goTrimRightCRLF rawLine0
  if rawLine.data.isEmpty then
    ({ type := .text, raw := rawLine0, text := "" }, linkNum)
  else if rawLine == "." then
    ({ type := .text, raw := rawLine0, text := "" }, linkNum)
  else
    let itemType := String.mk (rawLine.data.take 1)
    let remaining := String.mk (rawLine.data.drop 1)
    let parts := goSplitTab remaining
    let displayString := parts.getD 0 ""
    if 3 ≤ parts.length then
      let selector := if 2 ≤ parts.length then parts.getD 1 "" else parts.getD 0 ""
      let host := parts.getD 2 ""
      let port := if 4 ≤ parts.length && parts.getD 3 "" != "" then parts.getD 3 "" else "70"
      if itemType == "i" || itemType == "3" then
        ({ type := .text, raw := rawLine0, text := displayString }, linkNum)
      else
        let gopherURL :=
          if itemType == "h" then
            if goStartsWith selector "URL:" then goTrimPre selector "URL:"
            else "gopher://" ++ host ++ ":" ++ port ++ "/h" ++ selector
          else if itemType == "0" then "gopher://" ++ host ++ ":" ++ port ++ "/0" ++ selector
          else if itemType == "1" then "gopher://" ++ host ++ ":" ++ port ++ "/1" ++ selector
          else if itemType == "7" then "gopher://" ++ host ++ ":" ++ port ++ "/7" ++ selector
          else if itemType == "9" then "gopher://" ++ host ++ ":" ++ port ++ "/9" ++ selector
          else "gopher://" ++ host ++ ":" ++ port ++ "/" ++ itemType ++ selector
        ({ type := .link, raw := rawLine0, text := displayString,
           url := gopherURL, linkNum := linkNum }, linkNum + 1)
    else
      ({ type := .text, raw := rawLine0, text := displayString }, linkNum)

/-- The scanner loop inside the Gopher `Parser.Parse` for menu documents. -/
def parseMenuLines : List String → Nat → List Line
  | [], _ => []
  | r :: rs, ln =>
    let res := parseGopherLine r ln
    res.1 :: parseMenuLines rs res.2

/-- Gopher `Parser.Parse`. -/
def Parse (resp : Response) : Document :=
  if !IsGopherMenu resp.meta then
    if goStartsWith resp.meta "text/plain" then
      { url := resp.url, rawBody := resp.body,
        lines := (goLines resp.body).map
          (fun t => { type := .text, raw := t, text := t }),
        links := [], mimeType := resp.meta }
    else
      { url := resp.url, rawBody := resp.body, lines := [], links := [],
        mimeType := resp.meta }
  else
    let lines := parseMenuLines (goLines resp.body) 1
    { url := resp.url, rawBody := resp.body, lines := lines,
      links := lines.filter (fun l => l.type == .link), mimeType := resp.meta }

end Gopher

/-! ### TOFU certificate store (`internal/gemini/tofu.go`)

The persistence layer (`Load`/`Save`/`save`, a JSON file on disk) is outside
the state modelled here; the trust ledger is the in-memory
hostname-to-certificate-info map, represented as an association list with
unique keys (a Go `map`).  SHA-256 comes from `crypto/sha256` and is abstracted
as a function parameter `sha256` from the DER bytes to the 32 digest bytes. -/

namespace Gemini

/-- The part of an `x509.Certificate` the TOFU store reads: the raw DER bytes,
the subject (as the string `cert.Subject.String()` produces), and the validity
window (`time.Time` modelled as integer instants). -/
structure Certificate where
  raw : List Nat
  subject : String
  notBefore : Int
  notAfter : Int
deriving DecidableEq, Repr

/-- `gemini.CertificateInfo`. -/
structure CertificateInfo where
  fingerprint : String
  firstSeen : Int
  lastSeen : Int
  subject : String
  notBefore : Int
  notAfter : Int
deriving DecidableEq, Repr

/-- The trust ledger: `map[string]*CertificateInfo` keyed by hostname. -/
abbrev CertMap := List (String × CertificateInfo)

/-- Go map assignment `t.certs[host] = info`. -/
def insertCert (host : String) (info : CertificateInfo) (m : CertMap) : CertMap :=
  (host, info) :: m.filter (fun p => p.1 != host)

/-- The lowercase hexadecimal digits used by `encoding/hex`. -/
def hexDigit (n : Nat) : Char :=
  "0123456789abcdef".data.getD n '0'

/-- `hex.EncodeToString`: two lowercase hex digits per byte. -/
def hexEncode (bytes : List Nat) : String :=
  String.mk (bytes.foldr (fun b acc => hexDigit (b / 16 % 16) :: hexDigit (b % 16) :: acc) [])

/-- `gemini.calculateFingerprint`. -/
def calculateFingerprint (sha256 : List Nat → List Nat) (cert : Certificate) : String :=
  hexEncode (sha256 cert.raw)

/-- The two errors `Verify` produces besides the inline
"certificate rejected by user" error. -/
inductive VerifyError where
  | certificateExpired
  | certificateRejected
  | certificateChanged
deriving DecidableEq, Repr

/-- The two pluggable trust-decision callbacks (`nil` in Go is `none`).
`OnCertChange` receives the old certificate argument, which the code always
passes as `nil` (`none`). -/
structure TOFUCallbacks where
  OnNewCert : Option (String → Certificate → Bool)
  OnCertChange : Option (String → Option Certificate → Certificate → Bool)

/-- `TOFUStore.Verify`, acting on the ledger.  Returns the error-or-unit
result together with the ledger after the call (`save()` to disk is elided;
its failures are swallowed by the code).  `now` is `time.Now()`. -/
def Verify (sha256 : List Nat → List Nat) (cb : TOFUCallbacks) (certs : CertMap)
    (host : String) (cert : Certificate) (now : Int) :
    Except VerifyError Unit × CertMap :=
  if decide (now < cert.notBefore) || decide (cert.notAfter < now) then
    (Except.error .certificateExpired, certs)
  else
    let fingerprint := calculateFingerprint sha256 cert
    match certs.lookup host with
    | none =>
      if (match cb.OnNewCert with
          | some f => !f host cert
          | none => false) then
        (Except.error .certificateRejected, certs)
      else
        (Except.ok (),
         insertCert host
           { fingerprint := fingerprint, firstSeen := now, lastSeen := now,
             subject := cert.subject, notBefore := cert.notBefore,
             notAfter := cert.notAfter } certs)
    | some stored =>
      if stored.fingerprint != fingerprint then
        if (match cb.OnCertChange with
            | some f => !f host none cert
            | none => false) then
          (Except.error .certificateChanged, certs)
        else
          (Except.ok (),
           insertCert host
             { fingerprint := fingerprint, firstSeen := stored.firstSeen,
               lastSeen := now, subject := cert.subject,
               notBefore := cert.notBefore, notAfter := cert.notAfter } certs)
      else
        (Except.ok (), insertCert host { stored with lastSeen := now } certs)

/-- `TOFUStore.GetCertInfo`. -/
def GetCertInfo (certs : CertMap) (host : String) : Option CertificateInfo × Bool :=
  match certs.lookup host with
  | some info => (some info, true)
  | none => (none, false)

end Gemini

/-! ### Page cache (cache package)

The Go map from key to entry is an association list with unique keys; the
cache key `sha256(url)` hex digest comes from the standard library and is
abstracted as a parameter `keyFn : String → String` (only
same-URL-gives-same-key matters to the claims).  `time.Now().Unix()` is the
explicit `now : Int` argument of each operation. -/

/-- `cache.CacheEntry`. -/
structure CacheEntry where
  url : String
  response : Response
  timestamp : Int
  ttl : Int
deriving DecidableEq, Repr

/-- `cache.Cache` (the mutex guards concurrency, not modelled; operations are
the atomic state transitions it serializes). -/
structure Cache where
  entries : List (String × CacheEntry)
  maxSize : Int
  currentSize : Int
  defaultTTL : Int
deriving DecidableEq, Repr

/-- `cache.NewCache`. -/
def NewCache (maxSizeMB : Int) (defaultTTLSeconds : Int) : Cache :=
  { entries := [], maxSize := maxSizeMB * 1024 * 1024, currentSize := 0,
    defaultTTL := defaultTTLSeconds }

/-- `len(resp.Body)` in bytes. -/
def bodySize (resp : Response) : Int :=
  (resp.body.utf8ByteSize : Int)

/-- Go map deletion `delete(c.entries, key)`. -/
def eraseKey (key : String) (l : List (String × CacheEntry)) :
    List (String × CacheEntry) :=
  l.filter (fun p => p.1 != key)

/-- Total body size of a list of entries. -/
def entriesSize (l : List (String × CacheEntry)) : Int :=
  (l.map (fun p => bodySize p.2.response)).sum

/-- `Cache.Get`: the value-result pair of the read-only lookup (found is false
on a miss or when `timestamp+ttl < now`; the expired entry is not deleted). -/
def Cache.Get (keyFn : String → String) (c : Cache) (url : String) (now : Int) :
    Option Response × Bool :=
  match c.entries.lookup (keyFn url) with
  | none => (none, false)
  | some entry =>
    if entry.timestamp + entry.ttl < now then (none, false)
    else (some entry.response, true)

/-- The "remove old entry if exists" step of `Cache.Set` (also the whole body
of `Cache.Invalidate`, which is the same code). -/
def Cache.removeExisting (c : Cache) (key : String) : Cache :=
  match c.entries.lookup key with
  | some oldEntry =>
    { c with currentSize := c.currentSize - bodySize oldEntry.response,
             entries := eraseKey key c.entries }
  | none => c

/-- `Cache.evictOldest`: delete every entry with `timestamp + ttl/2 < now`
(Go's `/` on int64 truncates toward zero, `Int.tdiv`).  The Go loop deletes
during map iteration; the per-entry condition is independent of the order, so
the result is the filter below. -/
def Cache.evictOldest (c : Cache) (now : Int) : Cache :=
  { c with
    entries := c.entries.filter
      (fun p => !decide (p.2.timestamp + Int.tdiv p.2.ttl 2 < now)),
    currentSize := c.currentSize - entriesSize (c.entries.filter
      (fun p => decide (p.2.timestamp + Int.tdiv p.2.ttl 2 < now))) }

/-- The state of the cache in `Cache.Set` after removing the prior entry for
the key and running the eviction pass when the new total would not fit. -/
def Cache.setPrep (keyFn : String → String) (c : Cache) (url : String)
    (r : Response) (now : Int) : Cache :=
  let c1 := c.removeExisting (keyFn url)
  if c1.currentSize + bodySize r > c1.maxSize then c1.evictOldest now else c1

/-- `Cache.Set` (`nil` response is `none`). -/
def Cache.Set (keyFn : String → String) (c : Cache) (url : String)
    (resp : Option Response) (ttl : Int) (now : Int) : Cache :=
  match resp with
  | none => c
  | some r =>
    if r.meta != "text/gemini" && r.meta != "text/plain" then c
    else
      let key := keyFn url
      let entrySize := bodySize r
      let c2 := c.setPrep keyFn url r now
      if c2.currentSize + entrySize > c2.maxSize then c2
      else
        let ttl2 := if ttl ≤ 0 then c2.defaultTTL else ttl
        { c2 with
          entries := (key, { url := url, response := r, timestamp := now,
                             ttl := ttl2 }) :: c2.entries,
          currentSize := c2.currentSize + entrySize }

/-- `Cache.Invalidate`. -/
def Cache.Invalidate (keyFn : String → String) (c : Cache) (url : String) : Cache :=
  c.removeExisting (keyFn url)

/-- `Cache.Clear`. -/
def Cache.Clear (c : Cache) : Cache :=
  { c with entries := [], currentSize := 0 }

/-- `Cache.GetSize`. -/
def Cache.GetSize (c : Cache) : Int :=
  c.currentSize

/-- `Cache.GetEntryCount`. -/
def Cache.GetEntryCount (c : Cache) : Nat :=
  c.entries.length

/-- One cache operation of the public interface. -/
inductive CacheOp where
  | set (url : String) (resp : Option Response) (ttl : Int) (now : Int)
  | get (url : String) (now : Int)
  | invalidate (url : String)
  | clear

/-- Apply one operation to the cache state (`Get` reads without mutating). -/
def Cache.applyOp (keyFn : String → String) (c : Cache) : CacheOp → Cache
  | .set url resp ttl now => Cache.Set keyFn c url resp ttl now
  | .get _ _ => c
  | .invalidate url => Cache.Invalidate keyFn c url
  | .clear => c.Clear

/-- Run a sequence of cache operations. -/
def Cache.runOps (keyFn : String → String) (c : Cache) : List CacheOp → Cache
  | [] => c
  | op :: ops => Cache.runOps keyFn (c.applyOp keyFn op) ops

/-- Well-formedness of a cache state: unique keys, accurate size accounting,
the tracked size within the configured maximum, and a nonnegative maximum. -/
def Cache.WF (c : Cache) : Prop :=
  (c.entries.map Prod.fst).Nodup ∧
  c.currentSize = entriesSize c.entries ∧
  c.currentSize ≤ c.maxSize ∧
  0 ≤ c.maxSize

end Starsearch

/-- C2: status classification is total and mutually exclusive over all
integers: each classifier is true exactly on its ten-value range, and the six
indicator values sum to one inside 10–69 and to zero outside. -/
theorem c2_status_classification (s : Int) :
    (Starsearch.Gemini.IsInputStatus s = decide (10 ≤ s ∧ s ≤ 19)) ∧
    (Starsearch.Gemini.IsSuccessStatus s = decide (20 ≤ s ∧ s ≤ 29)) ∧
    (Starsearch.Gemini.IsRedirectStatus s = decide (30 ≤ s ∧ s ≤ 39)) ∧
    (Starsearch.Gemini.IsTemporaryFailure s = decide (40 ≤ s ∧ s ≤ 49)) ∧
    (Starsearch.Gemini.IsPermanentFailure s = decide (50 ≤ s ∧ s ≤ 59)) ∧
    (Starsearch.Gemini.IsCertificateRequired s = decide (60 ≤ s ∧ s ≤ 69)) ∧
    ((cond (Starsearch.Gemini.IsInputStatus s) 1 0)
      + (cond (Starsearch.Gemini.IsSuccessStatus s) 1 0)
      + (cond (Starsearch.Gemini.IsRedirectStatus s) 1 0)
      + (cond (Starsearch.Gemini.IsTemporaryFailure s) 1 0)
      + (cond (Starsearch.Gemini.IsPermanentFailure s) 1 0)
      + (cond (Starsearch.Gemini.IsCertificateRequired s) 1 0)
      = if 10 ≤ s ∧ s ≤ 69 then (1 : Nat) else 0) := by
  unfold Starsearch.Gemini.IsInputStatus Starsearch.Gemini.IsSuccessStatus
    Starsearch.Gemini.IsRedirectStatus Starsearch.Gemini.IsTemporaryFailure
    Starsearch.Gemini.IsPermanentFailure Starsearch.Gemini.IsCertificateRequired
  refine ⟨?_, ?_, ?_, ?_, ?_, ?_, ?_⟩
  · rw [Bool.eq_iff_iff]; simp only [Bool.and_eq_true, decide_eq_true_eq]; omega
  · rw [Bool.eq_iff_iff]; simp only [Bool.and_eq_true, decide_eq_true_eq]; omega
  · rw [Bool.eq_iff_iff]; simp only [Bool.and_eq_true, decide_eq_true_eq]; omega
  · rw [Bool.eq_iff_iff]; simp only [Bool.and_eq_true, decide_eq_true_eq]; omega
  · rw [Bool.eq_iff_iff]; simp only [Bool.and_eq_true, decide_eq_true_eq]; omega
  · rw [Bool.eq_iff_iff]; simp only [Bool.and_eq_true, decide_eq_true_eq]; omega
  · rcases Bool.dichotomy (decide (10 ≤ s) && decide (s < 20)) with h1 | h1 <;>
      rcases Bool.dichotomy (decide (20 ≤ s) && decide (s < 30)) with h2 | h2 <;>
      rcases Bool.dichotomy (decide (30 ≤ s) && decide (s < 40)) with h3 | h3 <;>
      rcases Bool.dichotomy (decide (40 ≤ s) && decide (s < 50)) with h4 | h4 <;>
      rcases Bool.dichotomy (decide (50 ≤ s) && decide (s < 60)) with h5 | h5 <;>
      rcases Bool.dichotomy (decide (60 ≤ s) && decide (s < 70)) with h6 | h6 <;>
      simp only [h1, h2, h3, h4, h5, h6, cond] <;>
      simp only [Bool.and_eq_true, Bool.and_eq_false_iff, decide_eq_true_eq,
        decide_eq_false_iff_not] at h1 h2 h3 h4 h5 h6 <;>
      split_ifs <;> omega

open Starsearch

/-- Every character `hexDigit` produces is one of the sixteen lowercase hex
digits. -/
theorem hexDigit_mem_digits (n : Nat) :
    Gemini.hexDigit n ∈ "0123456789abcdef".data := by
  unfold Gemini.hexDigit
  by_cases h : n < ("0123456789abcdef".data).length
  · rw [List.getD_eq_getElem _ _ h]
    exact List.getElem_mem h
  · rw [List.getD_eq_default _ _ (Nat.le_of_not_lt h)]
    decide

/-- Every character of a `hexEncode` digest is a lowercase hex digit. -/
theorem hexEncode_chars (bs : List Nat) :
    ∀ ch ∈ (Gemini.hexEncode bs).data, ch ∈ "0123456789abcdef".data := by
  unfold Gemini.hexEncode
  induction bs with
  | nil => intro ch h; simp at h
  | cons b bs ih =>
    intro ch h
    simp only [List.foldr_cons] at h
    rcases List.mem_cons.mp h with h | h
    · exact h ▸ hexDigit_mem_digits _
    · rcases List.mem_cons.mp h with h | h
      · exact h ▸ hexDigit_mem_digits _
      · exact ih ch h

/-- C3: when `now` lies outside the certificate's validity window, `Verify`
fails with the `CertificateExpired` error and leaves the trust ledger
unchanged, whatever record the ledger holds for the host. -/
theorem c3_verify_expired (sha256 : List Nat → List Nat)
    (cb : Gemini.TOFUCallbacks) (certs : Gemini.CertMap) (host : String)
    (cert : Gemini.Certificate) (now : Int)
    (h : now < cert.notBefore ∨ cert.notAfter < now) :
    Gemini.Verify sha256 cb certs host cert now =
      (Except.error Gemini.VerifyError.certificateExpired, certs) := by
  unfold Gemini.Verify
  rcases h with h | h <;> simp [h]

/-- Witness for C3 at a concrete expired certificate and a nonempty ledger. -/
theorem c3_verify_expired_witness :
    ((20 : Int) < 0 ∨ (10 : Int) < 20) ∧
    Gemini.Verify (fun _ => []) ⟨none, none⟩
      [("h", ⟨"f", 0, 0, "s", 0, 10⟩)] "h" ⟨[], "s", 0, 10⟩ 20 =
      (Except.error Gemini.VerifyError.certificateExpired,
       [("h", ⟨"f", 0, 0, "s", 0, 10⟩)]) :=
  ⟨Or.inr (by decide),
   c3_verify_expired (fun _ => []) ⟨none, none⟩ _ "h" ⟨[], "s", 0, 10⟩ 20
     (Or.inr (by decide))⟩

/-- C4: for an unseen host and a time-valid certificate, when the
accept-new-certificate callback returns true, `Verify` succeeds and
`GetCertInfo` afterwards returns a record whose fingerprint is the hex digest
(all lowercase hex digits) of the certificate's raw bytes, with
`FirstSeen = LastSeen = now`. -/
theorem c4_tofu_first_use (sha256 : List Nat → List Nat)
    (cb : Gemini.TOFUCallbacks) (certs : Gemini.CertMap) (host : String)
    (cert : Gemini.Certificate) (now : Int) (f : String → Gemini.Certificate → Bool)
    (hvalid : cert.notBefore ≤ now ∧ now ≤ cert.notAfter)
    (hunseen : certs.lookup host = none)
    (hnew : cb.OnNewCert = some f)
    (hacc : f host cert = true) :
    (Gemini.Verify sha256 cb certs host cert now).1 = Except.ok () ∧
    ∃ info : Gemini.CertificateInfo,
      Gemini.GetCertInfo (Gemini.Verify sha256 cb certs host cert now).2 host =
        (some info, true) ∧
      info.fingerprint = Gemini.hexEncode (sha256 cert.raw) ∧
      info.firstSeen = now ∧ info.lastSeen = now ∧
      ∀ ch ∈ info.fingerprint.data, ch ∈ "0123456789abcdef".data := by
  have h1 : ¬(now < cert.notBefore) := by omega
  have h2 : ¬(cert.notAfter < now) := by omega
  have hres : Gemini.Verify sha256 cb certs host cert now =
      (Except.ok (),
       Gemini.insertCert host
         ⟨Gemini.hexEncode (sha256 cert.raw), now, now, cert.subject,
          cert.notBefore, cert.notAfter⟩ certs) := by
    unfold Gemini.Verify
    simp [h1, h2, hunseen, hnew, hacc, Gemini.calculateFingerprint]
  rw [hres]
  refine ⟨rfl, ⟨⟨Gemini.hexEncode (sha256 cert.raw), now, now, cert.subject,
    cert.notBefore, cert.notAfter⟩, ?_, rfl, rfl, rfl, hexEncode_chars _⟩⟩
  unfold Gemini.GetCertInfo Gemini.insertCert
  simp [List.lookup]

/-- Witness for C4 at a concrete certificate, hash and always-accept
callback. -/
theorem c4_tofu_first_use_witness :
    (((0 : Int) ≤ 5 ∧ (5 : Int) ≤ 100) ∧
     List.lookup "example.org" ([] : Gemini.CertMap) = none ∧
     (some (fun (_ : String) (_ : Gemini.Certificate) => true) =
       some (fun (_ : String) (_ : Gemini.Certificate) => true)) ∧
     (fun (_ : String) (_ : Gemini.Certificate) => true) "example.org"
       ⟨[1, 2], "cn", 0, 100⟩ = true) ∧
    ((Gemini.Verify (fun _ => [171])
        ⟨some (fun _ _ => true), none⟩ [] "example.org"
        ⟨[1, 2], "cn", 0, 100⟩ 5).1 = Except.ok () ∧
     ∃ info : Gemini.CertificateInfo,
       Gemini.GetCertInfo (Gemini.Verify (fun _ => [171])
          ⟨some (fun _ _ => true), none⟩ [] "example.org"
          ⟨[1, 2], "cn", 0, 100⟩ 5).2 "example.org" = (some info, true) ∧
       info.fingerprint = Gemini.hexEncode ((fun _ => [171]) [1, 2]) ∧
       info.firstSeen = 5 ∧ info.lastSeen = 5 ∧
       ∀ ch ∈ info.fingerprint.data, ch ∈ "0123456789abcdef".data) :=
  ⟨⟨⟨by decide, by decide⟩, rfl, rfl, rfl⟩,
   c4_tofu_first_use (fun _ => [171]) ⟨some (fun _ _ => true), none⟩ []
     "example.org" ⟨[1, 2], "cn", 0, 100⟩ 5 (fun _ _ => true)
     ⟨by decide, by decide⟩ rfl rfl rfl⟩

/-- C9: with both trust-decision callbacks nil, `Verify` never rejects a
time-valid certificate: it succeeds, and afterwards the ledger maps the host
to a record carrying the presented certificate's fingerprint (an unseen host
is silently recorded, a changed fingerprint silently overwritten). -/
theorem c9_nil_callbacks_trust (sha256 : List Nat → List Nat)
    (certs : Gemini.CertMap) (host : String) (cert : Gemini.Certificate)
    (now : Int)
    (hvalid : cert.notBefore ≤ now ∧ now ≤ cert.notAfter) :
    (Gemini.Verify sha256 ⟨none, none⟩ certs host cert now).1 = Except.ok () ∧
    ∃ info : Gemini.CertificateInfo,
      (Gemini.Verify sha256 ⟨none, none⟩ certs host cert now).2.lookup host =
        some info ∧
      info.fingerprint = Gemini.calculateFingerprint sha256 cert := by
  have h1 : ¬(now < cert.notBefore) := by omega
  have h2 : ¬(cert.notAfter < now) := by omega
  cases hl : certs.lookup host with
  | none =>
    have hres : Gemini.Verify sha256 ⟨none, none⟩ certs host cert now =
        (Except.ok (),
         Gemini.insertCert host
           ⟨Gemini.calculateFingerprint sha256 cert, now, now, cert.subject,
            cert.notBefore, cert.notAfter⟩ certs) := by
      unfold Gemini.Verify
      simp [h1, h2, hl]
    rw [hres]
    refine ⟨rfl, ⟨⟨Gemini.calculateFingerprint sha256 cert, now, now,
      cert.subject, cert.notBefore, cert.notAfter⟩, ?_, rfl⟩⟩
    unfold Gemini.insertCert
    simp [List.lookup]
  | some stored =>
    by_cases hfp : (stored.fingerprint != Gemini.calculateFingerprint sha256 cert) = true
    · have hres : Gemini.Verify sha256 ⟨none, none⟩ certs host cert now =
          (Except.ok (),
           Gemini.insertCert host
             ⟨Gemini.calculateFingerprint sha256 cert, stored.firstSeen, now,
              cert.subject, cert.notBefore, cert.notAfter⟩ certs) := by
        unfold Gemini.Verify
        simp [h1, h2, hl, hfp]
      rw [hres]
      refine ⟨rfl, ⟨⟨Gemini.calculateFingerprint sha256 cert, stored.firstSeen,
        now, cert.subject, cert.notBefore, cert.notAfter⟩, ?_, rfl⟩⟩
      unfold Gemini.insertCert
      simp [List.lookup]
    · have heq : stored.fingerprint = Gemini.calculateFingerprint sha256 cert := by
        simpa using hfp
      have hres : Gemini.Verify sha256 ⟨none, none⟩ certs host cert now =
          (Except.ok (),
           Gemini.insertCert host { stored with lastSeen := now } certs) := by
        unfold Gemini.Verify
        simp [h1, h2, hl, hfp]
      rw [hres]
      refine ⟨rfl, ⟨{ stored with lastSeen := now }, ?_, heq⟩⟩
      unfold Gemini.insertCert
      simp [List.lookup]

/-- Witness for C9 at a concrete certificate over a ledger holding a
different fingerprint for the host. -/
theorem c9_nil_callbacks_trust_witness :
    ((0 : Int) ≤ 5 ∧ (5 : Int) ≤ 100) ∧
    ((Gemini.Verify (fun _ => [18, 52]) ⟨none, none⟩
        [("example.org", ⟨"old", 1, 2, "s", 0, 50⟩)] "example.org"
        ⟨[7], "cn", 0, 100⟩ 5).1 = Except.ok () ∧
     ∃ info : Gemini.CertificateInfo,
       (Gemini.Verify (fun _ => [18, 52]) ⟨none, none⟩
          [("example.org", ⟨"old", 1, 2, "s", 0, 50⟩)] "example.org"
          ⟨[7], "cn", 0, 100⟩ 5).2.lookup "example.org" = some info ∧
       info.fingerprint =
         Gemini.calculateFingerprint (fun _ => [18, 52]) ⟨[7], "cn", 0, 100⟩) :=
  ⟨⟨by decide, by decide⟩,
   c9_nil_callbacks_trust (fun _ => [18, 52]) _ "example.org"
     ⟨[7], "cn", 0, 100⟩ 5 ⟨by decide, by decide⟩⟩

/-- The `GetTitle` search loop returns the text of the first heading line with
non-empty text, in the `List.find?` formulation. -/
theorem getTitleLoop_eq_find (ls : List Line) :
    Gemini.getTitleLoop ls =
      (ls.find? (fun l =>
        (l.type == .heading1 || l.type == .heading2 || l.type == .heading3)
          && l.text != "")).map Line.text := by
  induction ls with
  | nil => rfl
  | cons l ls ih =>
    unfold Gemini.getTitleLoop
    by_cases hh : (l.type == .heading1 || l.type == .heading2 || l.type == .heading3) = true
    · by_cases ht : (l.text != "") = true
      · rw [List.find?_cons_of_pos _ (by simp [hh, ht])]
        simp [hh, ht]
      · rw [List.find?_cons_of_neg _ (by simp [hh, ht])]
        simp [hh, ht, ih]
    · rw [List.find?_cons_of_neg _ (by simp [hh])]
      simp [hh, ih]

/-- C8: `GetTitle` returns the text of the first Heading1/2/3 line with
non-empty text; with no such line it returns the host component of the
document's URL, and when that is unavailable (URL parsing fails) the raw URL
string. -/
theorem c8_get_title (parseHost : String → Option String) (doc : Document) :
    Gemini.GetTitle parseHost doc =
      match doc.lines.find? (fun l =>
        (l.type == .heading1 || l.type == .heading2 || l.type == .heading3)
          && l.text != "") with
      | some l => l.text
      | none =>
        match parseHost doc.url with
        | some host => host
        | none => doc.url := by
  unfold Gemini.GetTitle
  rw [getTitleLoop_eq_find]
  cases doc.lines.find? (fun l =>
    (l.type == .heading1 || l.type == .heading2 || l.type == .heading3)
      && l.text != "") with
  | none => rfl
  | some l => rfl

/-- C10: a response whose meta names a charset variant of `text/gemini` parses
to exactly the same lines as the bare `text/gemini` meta, yet `Cache.Set` with
it leaves the cache unchanged, because `Set` compares the meta for exact
equality with `"text/gemini"` and `"text/plain"` only. -/
theorem c10_charset_variant (resolveURL keyFn : String → String) (status : Int)
    (body u : String) (c : Cache) (ttl now : Int) :
    (Gemini.Parse resolveURL
        { status := status, meta := "text/gemini; charset=utf-8", body := body,
          url := u }).lines =
      (Gemini.Parse resolveURL
        { status := status, meta := "text/gemini", body := body,
          url := u }).lines ∧
    (Gemini.Parse resolveURL
        { status := status, meta := "text/gemini;charset=utf-8", body := body,
          url := u }).lines =
      (Gemini.Parse resolveURL
        { status := status, meta := "text/gemini", body := body,
          url := u }).lines ∧
    Cache.Set keyFn c u
      (some { status := status, meta := "text/gemini; charset=utf-8",
              body := body, url := u }) ttl now = c ∧
    Cache.Set keyFn c u
      (some { status := status, meta := "text/gemini;charset=utf-8",
              body := body, url := u }) ttl now = c := by
  refine ⟨?_, ?_, ?_, ?_⟩
  · unfold Gemini.Parse Gemini.GetMIMEType
    by_cases hs : Gemini.IsSuccessStatus status = true
    · simp only [hs, if_true]
      have hg : Gemini.IsTextGemini "text/gemini; charset=utf-8" = true := by decide
      have hg0 : Gemini.IsTextGemini "text/gemini" = true := by decide
      simp [hg, hg0]
    · simp [hs]
  · unfold Gemini.Parse Gemini.GetMIMEType
    by_cases hs : Gemini.IsSuccessStatus status = true
    · simp only [hs, if_true]
      have hg : Gemini.IsTextGemini "text/gemini;charset=utf-8" = true := by decide
      have hg0 : Gemini.IsTextGemini "text/gemini" = true := by decide
      simp [hg, hg0]
    · simp [hs]
  · unfold Cache.Set
    have hm : ("text/gemini; charset=utf-8" != "text/gemini"
        && "text/gemini; charset=utf-8" != "text/plain") = true := by decide
    simp [hm]
  · unfold Cache.Set
    have hm : ("text/gemini;charset=utf-8" != "text/gemini"
        && "text/gemini;charset=utf-8" != "text/plain") = true := by decide
    simp [hm]

/-- On a line satisfying `goodLinkLine`, `parseLine` either emits a link
carrying the current counter value and increments the counter, or emits a
non-link and leaves the counter unchanged. -/
theorem parseLine_link_spec (resolveURL : String → String) (r : String)
    (inPre : Bool) (ln : Nat) (h : Gemini.goodLinkLine r) :
    ((Gemini.parseLine resolveURL r inPre ln).1.type = .link ∧
     (Gemini.parseLine resolveURL r inPre ln).1.linkNum = ln ∧
     (Gemini.parseLine resolveURL r inPre ln).2.2 = ln + 1) ∨
    ((Gemini.parseLine resolveURL r inPre ln).1.type ≠ .link ∧
     (Gemini.parseLine resolveURL r inPre ln).2.2 = ln) := by
  unfold Gemini.parseLine
  by_cases h1 : goStartsWith r "```" = true
  · simp only [h1, if_true]
    by_cases h2 : (!inPre) = true <;> simp [h2]
  · simp only [h1, Bool.false_eq_true, if_false]
    by_cases h2 : inPre = true
    · simp [h2]
    · simp only [h2, Bool.false_eq_true, if_false]
      by_cases h3 : goStartsWith r "=>" = true
      · simp only [h3, if_true]
        cases hf : goFields (goTrimSpace (goTrimPre r "=>")) with
        | nil => exact absurd hf (h h3)
        | cons a rest => simp
      · simp only [h3, Bool.false_eq_true, if_false]
        by_cases h4 : goStartsWith r "#" = true
        · simp only [h4, if_true]
          by_cases h5 : goStartsWith r "###" = true
          · simp [h5]
          · by_cases h6 : goStartsWith r "##" = true <;> simp [h5, h6]
        · simp only [h4, Bool.false_eq_true, if_false]
          split_ifs <;> simp

/-- Link numbering of the Gemini scanner loop: starting the counter at `ln`,
the `i`-th link among the produced lines carries number `ln + i`. -/
theorem parseLines_linkNum (resolveURL : String → String) (rs : List String) :
    ∀ (inPre : Bool) (ln : Nat), (∀ r ∈ rs, Gemini.goodLinkLine r) →
      ∀ i, i < ((Gemini.parseLines resolveURL rs inPre ln).filter
          (fun l => l.type == .link)).length →
        (((Gemini.parseLines resolveURL rs inPre ln).filter
          (fun l => l.type == .link)).getD i default).linkNum = ln + i := by
  induction rs with
  | nil => intro inPre ln _ i hi; simp [Gemini.parseLines] at hi
  | cons r rs ih =>
    intro inPre ln h i hi
    have hr : Gemini.goodLinkLine r := h r (List.mem_cons_self r rs)
    have hrs : ∀ x ∈ rs, Gemini.goodLinkLine x :=
      fun x hx => h x (List.mem_cons_of_mem r hx)
    rcases parseLine_link_spec resolveURL r inPre ln hr with ⟨hl, hn, hc⟩ | ⟨hl, hc⟩
    · have hfil : (Gemini.parseLines resolveURL (r :: rs) inPre ln).filter
          (fun l => l.type == .link) =
          (Gemini.parseLine resolveURL r inPre ln).1 ::
            (Gemini.parseLines resolveURL rs
              (Gemini.parseLine resolveURL r inPre ln).2.1 (ln + 1)).filter
              (fun l => l.type == .link) := by
        rw [Gemini.parseLines]
        rw [List.filter_cons_of_pos (by simp [hl])]
        rw [hc]
      rw [hfil] at hi ⊢
      cases i with
      | zero => simpa using hn
      | succ j =>
        simp only [List.getD_cons_succ]
        have := ih (Gemini.parseLine resolveURL r inPre ln).2.1 (ln + 1) hrs j
          (by simpa using hi)
        rw [this]
        omega
    · have hfil : (Gemini.parseLines resolveURL (r :: rs) inPre ln).filter
          (fun l => l.type == .link) =
          (Gemini.parseLines resolveURL rs
            (Gemini.parseLine resolveURL r inPre ln).2.1 ln).filter
            (fun l => l.type == .link) := by
        rw [Gemini.parseLines]
        rw [List.filter_cons_of_neg (by simp [hl])]
        rw [hc]
      rw [hfil] at hi ⊢
      exact ih _ ln hrs i hi

/-- `parseGopherLine` either emits a link carrying the current counter value
and increments the counter, or emits a non-link and leaves it unchanged. -/
theorem parseGopherLine_spec (r : String) (ln : Nat) :
    ((Gopher.parseGopherLine r ln).1.type = .link ∧
     (Gopher.parseGopherLine r ln).1.linkNum = ln ∧
     (Gopher.parseGopherLine r ln).2 = ln + 1) ∨
    ((Gopher.parseGopherLine r ln).1.type ≠ .link ∧
     (Gopher.parseGopherLine r ln).2 = ln) := by
  unfold Gopher.parseGopherLine
  dsimp only
  generalize goTrimRightCRLF r = t
  generalize (goSplitTab { data := List.drop 1 t.data } : List String) = parts
  generalize ({ data := List.take 1 t.data } : String) = itemType
  by_cases h1 : t.data.isEmpty = true
  · simp only [h1, if_true]
    exact Or.inr ⟨nofun, by trivial⟩
  · simp only [h1, Bool.false_eq_true, if_false]
    by_cases h2 : (t == ".") = true
    · simp only [h2, if_true]
      exact Or.inr ⟨nofun, by trivial⟩
    · simp only [h2, Bool.false_eq_true, if_false]
      by_cases h3 : 3 ≤ parts.length
      · simp only [h3, if_true]
        by_cases h4 : (itemType == "i" || itemType == "3") = true
        · simp only [h4, if_true]
          exact Or.inr ⟨nofun, by trivial⟩
        · simp only [h4, Bool.false_eq_true, if_false]
          refine Or.inl ⟨?_, ?_, ?_⟩ <;> trivial
      · simp only [h3, if_false]
        exact Or.inr ⟨nofun, by trivial⟩
/-- Link numbering of the Gopher menu loop: starting the counter at `ln`, the
`i`-th link among the produced lines carries number `ln + i`. -/
theorem parseMenuLines_linkNum (rs : List String) :
    ∀ (ln : Nat),
      ∀ i, i < ((Gopher.parseMenuLines rs ln).filter
          (fun l => l.type == .link)).length →
        (((Gopher.parseMenuLines rs ln).filter
          (fun l => l.type == .link)).getD i default).linkNum = ln + i := by
  induction rs with
  | nil => intro ln i hi; simp [Gopher.parseMenuLines] at hi
  | cons r rs ih =>
    intro ln i hi
    rcases parseGopherLine_spec r ln with ⟨hl, hn, hc⟩ | ⟨hl, hc⟩
    · have hfil : (Gopher.parseMenuLines (r :: rs) ln).filter
          (fun l => l.type == .link) =
          (Gopher.parseGopherLine r ln).1 ::
            (Gopher.parseMenuLines rs (ln + 1)).filter
              (fun l => l.type == .link) := by
        rw [Gopher.parseMenuLines]
        rw [List.filter_cons_of_pos (by simp [hl])]
        rw [hc]
      rw [hfil] at hi ⊢
      cases i with
      | zero => simpa using hn
      | succ j =>
        simp only [List.getD_cons_succ]
        have := ih (ln + 1) j (by simpa using hi)
        rw [this]
        omega
    · have hfil : (Gopher.parseMenuLines (r :: rs) ln).filter
          (fun l => l.type == .link) =
          (Gopher.parseMenuLines rs ln).filter (fun l => l.type == .link) := by
        rw [Gopher.parseMenuLines]
        rw [List.filter_cons_of_neg (by simp [hl])]
        rw [hc]
      rw [hfil] at hi ⊢
      exact ih ln i hi

/-- A list of plain text lines contains no link-typed line. -/
theorem filter_link_map_text (ls : List String) :
    (ls.map (fun t => ({ type := .text, raw := t, text := t } : Line))).filter
      (fun l => l.type == .link) = [] := by
  induction ls with
  | nil => rfl
  | cons a ls ih => simp [ih]

/-- C1 (amended): for both parsers, `links` is exactly the subsequence of
`lines` of type Link in document order, and `linkNum` runs 1, 2, 3, ... with
no gaps, restarting per document — for the Gemini parser provided every line
beginning with `=>` carries at least one token after the marker (the Gopher
part and the subsequence part are unconditional). -/
theorem c1_links_exactly_numbered (resolveURL : String → String)
    (resp gresp : Response)
    (h : ∀ r ∈ goLines resp.body, Gemini.goodLinkLine r) :
    ((Gemini.Parse resolveURL resp).links =
       (Gemini.Parse resolveURL resp).lines.filter (fun l => l.type == .link) ∧
     ∀ i, i < (Gemini.Parse resolveURL resp).links.length →
       ((Gemini.Parse resolveURL resp).links.getD i default).linkNum = i + 1) ∧
    ((Gopher.Parse gresp).links =
       (Gopher.Parse gresp).lines.filter (fun l => l.type == .link) ∧
     ∀ i, i < (Gopher.Parse gresp).links.length →
       ((Gopher.Parse gresp).links.getD i default).linkNum = i + 1) := by
  constructor
  · unfold Gemini.Parse
    dsimp only
    by_cases hm : (!Gemini.IsTextGemini (Gemini.GetMIMEType resp)
        && !Gemini.IsTextPlain (Gemini.GetMIMEType resp)) = true
    · simp only [hm, if_true]
      exact ⟨rfl, fun i hi => absurd hi (by simp)⟩
    · simp only [hm, Bool.false_eq_true, if_false]
      refine ⟨by trivial, fun i hi => ?_⟩
      have hnum := parseLines_linkNum resolveURL (goLines resp.body) false 1 h i
        (by exact hi)
      omega
  · unfold Gopher.Parse
    dsimp only
    by_cases hmenu : (!Gopher.IsGopherMenu gresp.meta) = true
    · simp only [hmenu, if_true]
      by_cases hplain : goStartsWith gresp.meta "text/plain" = true
      · simp only [hplain, if_true]
        exact ⟨(filter_link_map_text _).symm, fun i hi => absurd hi (by simp)⟩
      · simp only [hplain, Bool.false_eq_true, if_false]
        exact ⟨rfl, fun i hi => absurd hi (by simp)⟩
    · simp only [hmenu, Bool.false_eq_true, if_false]
      refine ⟨by trivial, fun i hi => ?_⟩
      have hnum := parseMenuLines_linkNum (goLines gresp.body) 1 i (by exact hi)
      omega

/-- C1 counterexample: a bare `=>` line is emitted typed Link with linkNum 0
and does not advance the counter, so `links[0].linkNum = 0`, not 1, refuting
the claim as stated. -/
theorem c1_counterexample :
    (Gemini.Parse id
      { status := 20, meta := "text/gemini", body := "=>\n=> gemini://x/ t",
        url := "gemini://a/" }).links.length = 2 ∧
    ¬((Gemini.Parse id
      { status := 20, meta := "text/gemini", body := "=>\n=> gemini://x/ t",
        url := "gemini://a/" }).links.getD 0 default).linkNum = 0 + 1 := by
  decide

/-- Witness for C1 at a concrete two-line Gemini document and a one-item
Gopher menu. -/
theorem c1_witness :
    (∀ r ∈ goLines "# T\n=> gemini://x/ link", Gemini.goodLinkLine r) ∧
    (((Gemini.Parse id
        { status := 20, meta := "text/gemini", body := "# T\n=> gemini://x/ link",
          url := "gemini://a/" }).links =
       (Gemini.Parse id
        { status := 20, meta := "text/gemini", body := "# T\n=> gemini://x/ link",
          url := "gemini://a/" }).lines.filter (fun l => l.type == .link) ∧
      ∀ i, i < (Gemini.Parse id
        { status := 20, meta := "text/gemini", body := "# T\n=> gemini://x/ link",
          url := "gemini://a/" }).links.length →
        ((Gemini.Parse id
          { status := 20, meta := "text/gemini", body := "# T\n=> gemini://x/ link",
            url := "gemini://a/" }).links.getD i default).linkNum = i + 1) ∧
     ((Gopher.Parse
        { status := 20, meta := "text/gopher", body := "1Home\t/\texample.org\t70",
          url := "gopher://example.org/" }).links =
       (Gopher.Parse
        { status := 20, meta := "text/gopher", body := "1Home\t/\texample.org\t70",
          url := "gopher://example.org/" }).lines.filter (fun l => l.type == .link) ∧
      ∀ i, i < (Gopher.Parse
        { status := 20, meta := "text/gopher", body := "1Home\t/\texample.org\t70",
          url := "gopher://example.org/" }).links.length →
        ((Gopher.Parse
          { status := 20, meta := "text/gopher", body := "1Home\t/\texample.org\t70",
            url := "gopher://example.org/" }).links.getD i default).linkNum = i + 1)) :=
  ⟨by decide,
   c1_links_exactly_numbered id
     { status := 20, meta := "text/gemini", body := "# T\n=> gemini://x/ link",
       url := "gemini://a/" }
     { status := 20, meta := "text/gopher", body := "1Home\t/\texample.org\t70",
       url := "gopher://example.org/" }
     (by decide)⟩

/-- C7: parsing the Gopher menu line `"1Home\t/\texample.org\t70\r\n"`
yields a Link with URL `gopher://example.org:70/1/` and display text `Home`;
in general a type-1 item with a complete selector/host/port triple (non-empty
port) synthesizes `gopher://host:port/1<selector>`. -/
theorem c7_gopher_menu_link :
    ((Gopher.Parse
        { status := 20, meta := "text/gopher",
          body := "1Home\t/\texample.org\t70\r\n",
          url := "gopher://example.org/" }).lines =
       [{ type := .link, raw := "1Home\t/\texample.org\t70", text := "Home",
          url := "gopher://example.org:70/1/", linkNum := 1 }] ∧
     (Gopher.Parse
        { status := 20, meta := "text/gopher",
          body := "1Home\t/\texample.org\t70\r\n",
          url := "gopher://example.org/" }).links =
       [{ type := .link, raw := "1Home\t/\texample.org\t70", text := "Home",
          url := "gopher://example.org:70/1/", linkNum := 1 }]) ∧
    (∀ (raw : String) (ln : Nat) (dis sel host port : String),
      (goTrimRightCRLF raw).data.take 1 = ['1'] →
      goSplitTab (String.mk ((goTrimRightCRLF raw).data.drop 1)) =
        [dis, sel, host, port] →
      port ≠ "" →
      Gopher.parseGopherLine raw ln =
        ({ type := .link, raw := raw, text := dis,
           url := "gopher://" ++ host ++ ":" ++ port ++ "/1" ++ sel,
           linkNum := ln }, ln + 1)) := by
  constructor
  · decide
  · intro raw ln dis sel host port h1 h2 h3
    unfold Gopher.parseGopherLine
    dsimp only
    have hne : (goTrimRightCRLF raw).data.isEmpty = false := by
      cases hd : (goTrimRightCRLF raw).data with
      | nil => rw [hd] at h1; simp at h1
      | cons a l => simp
    have hdot : ((goTrimRightCRLF raw) == ".") = false := by
      by_cases hq : goTrimRightCRLF raw = "."
      · rw [hq] at h1; simp at h1
      · exact beq_eq_false_iff_ne.mpr hq
    rw [show (String.mk ((goTrimRightCRLF raw).data.drop 1)) =
      { data := (goTrimRightCRLF raw).data.drop 1 } from rfl] at h2
    simp only [hne, Bool.false_eq_true, if_false, hdot, h1, h2]
    have hp : (port != "") = true := bne_iff_ne.mpr h3
    simp [hp]

/-- A response body size is nonnegative. -/
theorem bodySize_nonneg (r : Response) : 0 ≤ bodySize r :=
  Int.natCast_nonneg _

/-- The empty entry list has size zero. -/
theorem entriesSize_nil : entriesSize [] = 0 := rfl

/-- Entry-list size of a cons. -/
theorem entriesSize_cons (p : String × CacheEntry) (l : List (String × CacheEntry)) :
    entriesSize (p :: l) = bodySize p.2.response + entriesSize l := by
  simp [entriesSize]

/-- Entry-list sizes are nonnegative. -/
theorem entriesSize_nonneg (l : List (String × CacheEntry)) : 0 ≤ entriesSize l := by
  induction l with
  | nil => simp [entriesSize]
  | cons p l ih =>
    rw [entriesSize_cons]
    exact add_nonneg (bodySize_nonneg _) ih

/-- A filter and its complement partition the entry-list size. -/
theorem entriesSize_filter_add (q : String × CacheEntry → Bool)
    (l : List (String × CacheEntry)) :
    entriesSize (l.filter q) + entriesSize (l.filter (fun x => !q x)) =
      entriesSize l := by
  induction l with
  | nil => simp [entriesSize]
  | cons p l ih =>
    by_cases hq : q p = true
    · rw [List.filter_cons_of_pos hq, List.filter_cons_of_neg (by simp [hq]),
        entriesSize_cons, entriesSize_cons]
      omega
    · rw [List.filter_cons_of_neg (by simp at hq; simp [hq]),
        List.filter_cons_of_pos (by simp at hq; simp [hq]),
        entriesSize_cons, entriesSize_cons]
      omega

/-- A filtered entry list has nonnegative size. -/
theorem entriesSize_filter_nonneg (q : String × CacheEntry → Bool)
    (l : List (String × CacheEntry)) :
    0 ≤ entriesSize (l.filter q) :=
  entriesSize_nonneg _

/-- Filtering preserves distinctness of keys. -/
theorem keys_nodup_filter (q : String × CacheEntry → Bool)
    (l : List (String × CacheEntry)) (h : (l.map Prod.fst).Nodup) :
    ((l.filter q).map Prod.fst).Nodup := by
  have hs : (l.filter q).Sublist l := List.filter_sublist l
  exact List.Nodup.sublist (hs.map Prod.fst) h

/-- Filtering cannot introduce a key. -/
theorem not_mem_keys_filter (k : String) (q : String × CacheEntry → Bool)
    (l : List (String × CacheEntry)) (h : k ∉ l.map Prod.fst) :
    k ∉ (l.filter q).map Prod.fst := by
  have hs : (l.filter q).Sublist l := List.filter_sublist l
  exact fun hm => h ((hs.map Prod.fst).mem hm)

/-- After erasing a key it is absent. -/
theorem not_mem_keys_eraseKey (k : String) (l : List (String × CacheEntry)) :
    k ∉ (eraseKey k l).map Prod.fst := by
  intro hm
  rcases List.mem_map.mp hm with ⟨p, hp, hk⟩
  have := List.of_mem_filter hp
  rw [hk] at this
  simp at this

/-- A key that fails to look up is absent. -/
theorem lookup_none_not_mem (k : String) (l : List (String × CacheEntry))
    (h : l.lookup k = none) : k ∉ l.map Prod.fst := by
  induction l with
  | nil => simp
  | cons p l ih =>
    rw [List.lookup] at h
    intro hm
    rcases List.mem_cons.mp hm with hm | hm
    · rw [hm] at h
      simp at h
    · by_cases hk : (k == p.1) = true
      · rw [hk] at h; simp at h
      · rw [Bool.eq_false_iff.mpr hk] at h
        exact ih h hm

/-- An absent key fails to look up. -/
theorem lookup_eq_none_of_not_mem (k : String) (l : List (String × CacheEntry))
    (h : k ∉ l.map Prod.fst) : l.lookup k = none := by
  induction l with
  | nil => rfl
  | cons p l ih =>
    rw [List.lookup]
    have hk : k ≠ p.1 := fun hc => h (by simp [hc])
    rw [beq_eq_false_iff_ne.mpr hk]
    exact ih (fun hm => h (List.mem_cons_of_mem _ hm))

/-- Erasing an absent key is the identity. -/
theorem eraseKey_of_not_mem (k : String) (l : List (String × CacheEntry))
    (h : k ∉ l.map Prod.fst) : eraseKey k l = l := by
  unfold eraseKey
  apply List.filter_eq_self.mpr
  intro p hp
  have : p.1 ≠ k := fun hc => h (by rw [← hc]; exact List.mem_map_of_mem Prod.fst hp)
  simpa using this

/-- With distinct keys, the size of an entry list splits into the looked-up
entry and the rest. -/
theorem lookup_some_entriesSize (k : String) (l : List (String × CacheEntry))
    (e : CacheEntry) (hnd : (l.map Prod.fst).Nodup) (hl : l.lookup k = some e) :
    entriesSize l = bodySize e.response + entriesSize (eraseKey k l) := by
  induction l with
  | nil => simp [List.lookup] at hl
  | cons p l ih =>
    rw [List.lookup] at hl
    by_cases hk : (k == p.1) = true
    · rw [hk] at hl
      simp only [Option.some.injEq] at hl
      have hkey : k = p.1 := by simpa using hk
      have hnotl : k ∉ l.map Prod.fst := by
        rw [hkey]
        exact (List.nodup_cons.mp hnd).1
      have herase : eraseKey k (p :: l) = eraseKey k l := by
        unfold eraseKey
        rw [List.filter_cons_of_neg (by simp [hkey])]
      rw [herase, eraseKey_of_not_mem k l hnotl, entriesSize_cons, hl]
    · rw [Bool.eq_false_iff.mpr hk] at hl
      have hkey : k ≠ p.1 := fun hc => hk (by simp [hc])
      have herase : eraseKey k (p :: l) = p :: eraseKey k l := by
        unfold eraseKey
        rw [List.filter_cons_of_pos (by simpa using fun hc => hkey hc.symm)]
      have := ih (List.nodup_cons.mp hnd).2 (by simpa using hl)
      rw [herase, entriesSize_cons, entriesSize_cons, this]
      omega

/-- The remove-old-entry step preserves well-formedness, the configuration,
and leaves the key absent. -/
theorem removeExisting_spec (c : Cache) (key : String) (h : Cache.WF c) :
    Cache.WF (c.removeExisting key) ∧
    (c.removeExisting key).maxSize = c.maxSize ∧
    (c.removeExisting key).defaultTTL = c.defaultTTL ∧
    key ∉ ((c.removeExisting key).entries.map Prod.fst) := by
  obtain ⟨hnd, hsz, hle, hpos⟩ := h
  unfold Cache.removeExisting
  cases hl : c.entries.lookup key with
  | none =>
    exact ⟨⟨hnd, hsz, hle, hpos⟩, rfl, rfl, lookup_none_not_mem key _ hl⟩
  | some e =>
    have hacc := lookup_some_entriesSize key c.entries e hnd hl
    refine ⟨⟨keys_nodup_filter _ _ hnd, ?_, ?_, hpos⟩, rfl, rfl,
      not_mem_keys_eraseKey key _⟩
    · simp only
      rw [hsz, hacc]
      unfold eraseKey
      omega
    · simp only
      have := bodySize_nonneg e.response
      omega

/-- The eviction pass preserves well-formedness, the configuration, and
introduces no keys. -/
theorem evictOldest_spec (c : Cache) (now : Int) (h : Cache.WF c) :
    Cache.WF (c.evictOldest now) ∧
    (c.evictOldest now).maxSize = c.maxSize ∧
    (c.evictOldest now).defaultTTL = c.defaultTTL ∧
    ∀ k, k ∉ (c.entries.map Prod.fst) →
      k ∉ ((c.evictOldest now).entries.map Prod.fst) := by
  obtain ⟨hnd, hsz, hle, hpos⟩ := h
  unfold Cache.evictOldest
  have hpart := entriesSize_filter_add
    (fun p => decide (p.2.timestamp + Int.tdiv p.2.ttl 2 < now)) c.entries
  have hnn := entriesSize_filter_nonneg
    (fun p => decide (p.2.timestamp + Int.tdiv p.2.ttl 2 < now)) c.entries
  refine ⟨⟨keys_nodup_filter _ _ hnd, ?_, ?_, hpos⟩, rfl, rfl,
    fun k hk => not_mem_keys_filter k _ _ hk⟩
  · simp only
    omega
  · simp only
    omega

/-- The pre-insertion state of `Set` is well-formed, keeps the configuration,
and holds no entry for the key. -/
theorem setPrep_spec (keyFn : String → String) (c : Cache) (url : String)
    (r : Response) (now : Int) (h : Cache.WF c) :
    Cache.WF (Cache.setPrep keyFn c url r now) ∧
    (Cache.setPrep keyFn c url r now).maxSize = c.maxSize ∧
    (Cache.setPrep keyFn c url r now).defaultTTL = c.defaultTTL ∧
    (keyFn url) ∉ ((Cache.setPrep keyFn c url r now).entries.map Prod.fst) ∧
    (Cache.setPrep keyFn c url r now).entries.lookup (keyFn url) = none := by
  obtain ⟨h1, h2, h3, h4⟩ := removeExisting_spec c (keyFn url) h
  unfold Cache.setPrep
  by_cases hc : (c.removeExisting (keyFn url)).currentSize + bodySize r >
      (c.removeExisting (keyFn url)).maxSize
  · obtain ⟨g1, g2, g3, g4⟩ :=
      evictOldest_spec (c.removeExisting (keyFn url)) now h1
    rw [if_pos hc]
    exact ⟨g1, g2.trans h2, g3.trans h3, g4 _ h4,
      lookup_eq_none_of_not_mem _ _ (g4 _ h4)⟩
  · rw [if_neg hc]
    exact ⟨h1, h2, h3, h4, lookup_eq_none_of_not_mem _ _ h4⟩

/-- `Set` preserves well-formedness. -/
theorem set_WF (keyFn : String → String) (c : Cache) (url : String)
    (resp : Option Response) (ttl now : Int) (h : Cache.WF c) :
    Cache.WF (Cache.Set keyFn c url resp ttl now) := by
  cases resp with
  | none => exact h
  | some r =>
    unfold Cache.Set
    dsimp only
    by_cases hm : (r.meta != "text/gemini" && r.meta != "text/plain") = true
    · rw [if_pos hm]; exact h
    · rw [if_neg hm]
      obtain ⟨g1, g2, g3, g4, g5⟩ := setPrep_spec keyFn c url r now h
      by_cases hfit : (Cache.setPrep keyFn c url r now).currentSize + bodySize r >
          (Cache.setPrep keyFn c url r now).maxSize
      · rw [if_pos hfit]; exact g1
      · rw [if_neg hfit]
        obtain ⟨w1, w2, w3, w4⟩ := g1
        refine ⟨?_, ?_, ?_, w4⟩
        · simp only [List.map_cons]
          exact List.nodup_cons.mpr ⟨g4, w1⟩
        · simp only
          rw [entriesSize_cons]
          dsimp only
          rw [w2]
          omega
        · simp only
          omega

/-- `Invalidate` preserves well-formedness. -/
theorem invalidate_WF (keyFn : String → String) (c : Cache) (url : String)
    (h : Cache.WF c) : Cache.WF (Cache.Invalidate keyFn c url) :=
  (removeExisting_spec c (keyFn url) h).1

/-- `Clear` preserves well-formedness. -/
theorem clear_WF (c : Cache) (h : Cache.WF c) : Cache.WF c.Clear := by
  obtain ⟨_, _, _, hpos⟩ := h
  exact ⟨List.nodup_nil, rfl, hpos, hpos⟩

/-- Every cache operation preserves well-formedness. -/
theorem applyOp_WF (keyFn : String → String) (c : Cache) (op : CacheOp)
    (h : Cache.WF c) : Cache.WF (c.applyOp keyFn op) := by
  cases op with
  | set url resp ttl now => exact set_WF keyFn c url resp ttl now h
  | get _ _ => exact h
  | invalidate url => exact invalidate_WF keyFn c url h
  | clear => exact clear_WF c h

/-- Any sequence of cache operations preserves well-formedness. -/
theorem runOps_WF (keyFn : String → String) (ops : List CacheOp) :
    ∀ (c : Cache), Cache.WF c → Cache.WF (Cache.runOps keyFn c ops) := by
  induction ops with
  | nil => intro c h; exact h
  | cons op ops ih =>
    intro c h
    exact ih _ (applyOp_WF keyFn c op h)

/-- C5 (amended): over every operation sequence from a fresh cache with
nonnegative configured maximum, the tracked size never exceeds the maximum;
and a `Set` whose entry still does not fit after the eviction pass inserts
nothing and returns no error — the result is exactly the post-removal,
post-eviction state, which holds no entry for the key. -/
theorem c5_cache_size_bound (keyFn : String → String) (maxSizeMB defTTL : Int)
    (ops : List CacheOp) (hmax : 0 ≤ maxSizeMB) :
    (Cache.runOps keyFn (NewCache maxSizeMB defTTL) ops).currentSize ≤
      (Cache.runOps keyFn (NewCache maxSizeMB defTTL) ops).maxSize ∧
    (∀ (c : Cache) (url : String) (r : Response) (ttl now : Int),
      Cache.WF c →
      (r.meta = "text/gemini" ∨ r.meta = "text/plain") →
      (Cache.setPrep keyFn c url r now).currentSize + bodySize r >
        (Cache.setPrep keyFn c url r now).maxSize →
      Cache.Set keyFn c url (some r) ttl now = Cache.setPrep keyFn c url r now ∧
      (Cache.Set keyFn c url (some r) ttl now).entries.lookup (keyFn url) =
        none) := by
  constructor
  · have hwf0 : Cache.WF (NewCache maxSizeMB defTTL) := by
      refine ⟨List.nodup_nil, rfl, ?_, ?_⟩ <;>
        simp [NewCache] <;> positivity
    exact (runOps_WF keyFn ops _ hwf0).2.2.1
  · intro c url r ttl now hwf hmeta hnofit
    have hm : (r.meta != "text/gemini" && r.meta != "text/plain") = false := by
      rcases hmeta with hmeta | hmeta <;> simp [hmeta]
    have hset : Cache.Set keyFn c url (some r) ttl now =
        Cache.setPrep keyFn c url r now := by
      unfold Cache.Set
      dsimp only
      rw [hm]
      simp only [Bool.false_eq_true, if_false]
      rw [if_pos hnofit]
    refine ⟨hset, ?_⟩
    rw [hset]
    exact (setPrep_spec keyFn c url r now hwf).2.2.2.2

/-- C5 counterexample: a `Set` that does not fit still removes the prior
entry for its key, so the cache is changed (entry count drops from 1 to 0),
refuting "leaves the cache unchanged" as stated. -/
theorem c5_counterexample :
    (Cache.Set id
      (Cache.Set id (NewCache 0 60) "u"
        (some { status := 20, meta := "text/plain", body := "", url := "u" })
        3600 0)
      "u" (some { status := 20, meta := "text/plain", body := "x", url := "u" })
      3600 0).GetEntryCount = 0 ∧
    (Cache.Set id (NewCache 0 60) "u"
      (some { status := 20, meta := "text/plain", body := "", url := "u" })
      3600 0).GetEntryCount = 1 := by
  decide

/-- Witness for C5 at the trivial configuration and empty operation list. -/
theorem c5_witness :
    (0 : Int) ≤ 0 ∧
    ((Cache.runOps id (NewCache 0 60) []).currentSize ≤
       (Cache.runOps id (NewCache 0 60) []).maxSize ∧
     (∀ (c : Cache) (url : String) (r : Response) (ttl now : Int),
       Cache.WF c →
       (r.meta = "text/gemini" ∨ r.meta = "text/plain") →
       (Cache.setPrep id c url r now).currentSize + bodySize r >
         (Cache.setPrep id c url r now).maxSize →
       Cache.Set id c url (some r) ttl now = Cache.setPrep id c url r now ∧
       (Cache.Set id c url (some r) ttl now).entries.lookup (id url) =
         none)) :=
  ⟨le_refl 0, c5_cache_size_bound id 0 60 [] (le_refl 0)⟩

/-- C6 (amended): for a cacheable response (meta exactly `text/gemini` or
`text/plain`) that fits a fresh cache, `Set` with ttl 3600 followed by an
immediate `Get` returns `(resp, true)`; once more than 3600 seconds have
elapsed `Get` returns found = false while the expired entry is still
present. -/
theorem c6_set_get_ttl (keyFn : String → String) (m d : Int) (u : String)
    (r : Response) (t0 t : Int)
    (hmeta : r.meta = "text/gemini" ∨ r.meta = "text/plain")
    (hfit : bodySize r ≤ m * 1024 * 1024) :
    Cache.Get keyFn (Cache.Set keyFn (NewCache m d) u (some r) 3600 t0) u t0 =
      (some r, true) ∧
    (t0 + 3600 < t →
      Cache.Get keyFn (Cache.Set keyFn (NewCache m d) u (some r) 3600 t0) u t =
        (none, false) ∧
      ((Cache.Set keyFn (NewCache m d) u (some r) 3600 t0).entries.lookup
        (keyFn u)).isSome = true) := by
  have hm : (r.meta != "text/gemini" && r.meta != "text/plain") = false := by
    rcases hmeta with hmeta | hmeta <;> simp [hmeta]
  have hprep : Cache.setPrep keyFn (NewCache m d) u r t0 = NewCache m d := by
    unfold Cache.setPrep Cache.removeExisting
    have hl : (NewCache m d).entries.lookup (keyFn u) = none := rfl
    rw [hl]
    rw [if_neg (by simp [NewCache]; omega)]
  have hset : Cache.Set keyFn (NewCache m d) u (some r) 3600 t0 =
      { entries := [(keyFn u, { url := u, response := r, timestamp := t0,
                                ttl := 3600 })],
        maxSize := m * 1024 * 1024, currentSize := 0 + bodySize r,
        defaultTTL := d } := by
    unfold Cache.Set
    dsimp only
    rw [hm]
    simp only [Bool.false_eq_true, if_false]
    rw [hprep]
    rw [if_neg (by simp [NewCache]; omega)]
    rfl
  rw [hset]
  constructor
  · unfold Cache.Get
    simp only [List.lookup, BEq.refl]
    rw [if_neg (by omega)]
  · intro ht
    constructor
    · unfold Cache.Get
      simp only [List.lookup, BEq.refl]
      rw [if_pos (by omega)]
    · simp [List.lookup]

/-- C6 counterexample: with meta `image/png` the `Set` is silently refused,
so the immediate `Get` misses, refuting the claim for arbitrary responses. -/
theorem c6_counterexample :
    Cache.Get id
      (Cache.Set id (NewCache 10 60) "gemini://x/"
        (some { status := 20, meta := "image/png", body := "b",
                url := "gemini://x/" }) 3600 0)
      "gemini://x/" 0 = (none, false) := by
  decide

/-- Witness for C6 at a concrete empty-body `text/gemini` response. -/
theorem c6_witness :
    (("text/gemini" : String) = "text/gemini" ∨
      ("text/gemini" : String) = "text/plain") ∧
    bodySize { status := 20, meta := "text/gemini", body := "", url := "u" } ≤
      1 * 1024 * 1024 ∧
    (Cache.Get id
        (Cache.Set id (NewCache 1 60) "u"
          (some { status := 20, meta := "text/gemini", body := "", url := "u" })
          3600 0) "u" 0 =
      (some { status := 20, meta := "text/gemini", body := "", url := "u" },
       true) ∧
     ((0 : Int) + 3600 < 4000 →
       Cache.Get id
          (Cache.Set id (NewCache 1 60) "u"
            (some { status := 20, meta := "text/gemini", body := "", url := "u" })
            3600 0) "u" 4000 = (none, false) ∧
       ((Cache.Set id (NewCache 1 60) "u"
          (some { status := 20, meta := "text/gemini", body := "", url := "u" })
          3600 0).entries.lookup (id "u")).isSome = true)) :=
  ⟨Or.inl rfl, by decide,
   c6_set_get_ttl id 1 60 "u"
     { status := 20, meta := "text/gemini", body := "", url := "u" } 0 4000
     (Or.inl rfl) (by decide)⟩

/-- Witness for C7 instantiating the general statement at the concrete menu
line. -/
theorem c7_witness :
    (goTrimRightCRLF "1Home\t/\texample.org\t70").data.take 1 = ['1'] ∧
    goSplitTab (String.mk
      ((goTrimRightCRLF "1Home\t/\texample.org\t70").data.drop 1)) =
      ["Home", "/", "example.org", "70"] ∧
    ("70" : String) ≠ "" ∧
    Gopher.parseGopherLine "1Home\t/\texample.org\t70" 5 =
      ({ type := .link, raw := "1Home\t/\texample.org\t70", text := "Home",
         url := "gopher://" ++ "example.org" ++ ":" ++ "70" ++ "/1" ++ "/",
         linkNum := 5 }, 5 + 1) :=
  ⟨by decide, by decide, by decide,
   c7_gopher_menu_link.2 "1Home\t/\texample.org\t70" 5 "Home" "/"
     "example.org" "70" (by decide) (by decide) (by decide)⟩
